import Mathlib

/-!
Verification development for the peardchat node (src/main.rs): a libp2p-based
floodsub/mDNS chat node. We embed, shallowly:

* the multiaddr text format used by `str::parse::<Multiaddr>()` (the exact
  strings the program parses are decided by this format: a multiaddress is a
  sequence of /protocol/value components and must begin with a slash);
* the startup sequence of `main` (key generation, peer-id derivation, mDNS
  initialisation, topic subscription, optional dial of `argv[1]`, the
  `listen_on` call) as a trace of actions together with an error outcome;
* the node state of the Flood Messaging Service (topic subscriptions, the
  PartialView mapping topics to peers, the SeenCache of message identities,
  live connections, the mDNS discovered-record table) and the handlers that
  mutate it: the mDNS event handler written in src/main.rs lines 60-76, and
  the publish / inbound-message operations of floodsub, which live in the
  libp2p dependency and are modelled from the spec where so marked;
* one iteration of the `tokio::select!` event loop of src/main.rs lines
  108-120.

Machine integers are Nat with explicit bounds where the source bounds them.
-/

namespace Peardchat

/-! ## Multiaddr text format

The program parses two string literals as multiaddresses: the optional dial
argument and the listen address `"ip4/0.0.0.0/tcp/0"`.  The multiaddr text
format splits the input on `/` and demands that the first component be empty
(the string must begin with a slash); afterwards components are read in
protocol/value pairs.  The two protocols this program can mention are `ip4`
(value: dotted-quad IPv4 address) and `tcp` (value: a 16-bit port). -/

/-- One protocol component of a multiaddress. -/
inductive Proto where
  | ip4 (a b c d : Nat)
  | tcp (port : Nat)
  deriving DecidableEq, Repr

/-- A multiaddress is a sequence of protocol components. -/
abbrev Multiaddr := List Proto

/-- Split a character sequence on a separator, like Rust's `str::split`:
`split '/' "a/b"` is `["a", "b"]`, the empty input yields one empty piece. -/
def splitOnChar (c : Char) : List Char → List (List Char)
  | [] => [[]]
  | x :: rest =>
    let r := splitOnChar c rest
    if x = c then [] :: r
    else
      match r with
      | [] => [[x]]
      | h :: t => (x :: h) :: t

/-- The numeric value of a decimal digit character, if it is one. -/
def digitVal (c : Char) : Option Nat :=
  if '0' ≤ c && c ≤ '9' then some (c.toNat - 48) else none

/-- Accumulate decimal digits into a number; fails on a non-digit. -/
def decDigitsAux : List Char → Nat → Option Nat
  | [], acc => some acc
  | c :: cs, acc =>
    match digitVal c with
    | some d => decDigitsAux cs (acc * 10 + d)
    | none => none

/-- Parse a non-empty all-digit character sequence as a decimal number. -/
def decDigits (cs : List Char) : Option Nat :=
  match cs with
  | [] => none
  | _ => decDigitsAux cs 0

/-- An octet text with a redundant leading zero (rejected by the IPv4
address parser). -/
def redundantZero : List Char → Bool
  | '0' :: _ :: _ => true
  | _ => false

/-- Parse one IPv4 octet: decimal digits, value at most 255, no redundant
leading zero. -/
def parseOctet (cs : List Char) : Option Nat :=
  match decDigits cs with
  | none => none
  | some n => if n ≤ 255 && !(redundantZero cs) then some n else none

/-- Parse a dotted-quad IPv4 address. -/
def parseIp4 (cs : List Char) : Option (Nat × Nat × Nat × Nat) :=
  match (splitOnChar '.' cs).mapM parseOctet with
  | some [a, b, c, d] => some (a, b, c, d)
  | _ => none

/-- Parse a TCP port: decimal digits, value at most 65535. -/
def parsePort (cs : List Char) : Option Nat :=
  match decDigits cs with
  | none => none
  | some n => if n ≤ 65535 then some n else none

/-- Parse the protocol/value components that follow the leading slash. -/
def parseParts : List (List Char) → Option (List Proto)
  | [] => some []
  | ['i', 'p', '4'] :: v :: rest =>
    match parseIp4 v, parseParts rest with
    | some (a, b, c, d), some tail => some (Proto.ip4 a b c d :: tail)
    | _, _ => none
  | ['t', 'c', 'p'] :: v :: rest =>
    match parsePort v, parseParts rest with
    | some p, some tail => some (Proto.tcp p :: tail)
    | _, _ => none
  | _ => none

/-- `Multiaddr::from_str`: split on `/`; the first component must be empty,
i.e. a multiaddress begins with a slash; then read protocol/value pairs. -/
def parseMultiaddr (input : String) : Option Multiaddr :=
  match splitOnChar '/' input.toList with
  | [] :: rest => parseParts rest
  | _ => none

/-! ## Identity and startup

`main` starts by generating a fresh random Ed25519 keypair and deriving the
local peer id from its public key (src/main.rs lines 22-25).  An Ed25519
secret key is exactly its random seed, the public key is the deterministic
(modelled injective) function of the seed, and for Ed25519 keys libp2p embeds
the public key verbatim in the peer id (identity multihash), so the peer id
is modelled as the public key itself. -/

/-- An Ed25519 keypair, identified by the random seed it was generated from. -/
structure Keypair where
  seed : Nat
  deriving DecidableEq, Repr

/-- `identity::Keypair::generate_ed25519()`: a fresh keypair from OS
randomness; the seed argument is the randomness drawn for this run. -/
def generateEd25519 (seed : Nat) : Keypair := ⟨seed⟩

/-- The public key determined by a keypair (Ed25519 public-key derivation,
modelled injectively). -/
def keypairPublic (k : Keypair) : Nat := k.seed

/-- `PeerId::from(public_key)`: for Ed25519 the peer id embeds the public key
verbatim (identity multihash). -/
def peerIdFromPublic (pub : Nat) : Nat := pub

/-- The environment a run of `main` executes in: the randomness drawn for key
generation, the optional first command-line argument, and oracles saying
whether mDNS initialisation, a dial, or a listen succeed at the OS level. -/
structure StartEnv where
  seed : Nat
  dialArg : Option String
  mdnsOk : Bool
  dialOk : Multiaddr → Bool
  listenOk : Multiaddr → Bool

/-- The local peer id a run derives: from the public key of the freshly
generated keypair, and from nothing else. -/
def runPeerId (env : StartEnv) : Nat :=
  peerIdFromPublic (keypairPublic (generateEd25519 env.seed))

/-- Observable actions of the startup sequence, in program order.  The two
`...Config` actions never occur in any trace: the program has no code that
reads or writes a persisted identity. -/
inductive Action where
  | genKeypair (seed : Nat)
  | printPeerId (id : Nat)
  | mdnsInit
  | subscribeChat
  | dialAttempt (a : Multiaddr)
  | printDialed (s : String)
  | listenAttempt (a : Multiaddr)
  | readIdentityConfig
  | persistIdentityConfig
  | enterEventLoop
  deriving DecidableEq, Repr

/-- The errors `main` can return before reaching the event loop (each `?` in
src/main.rs lines 79-105). -/
inductive StartupError where
  | mdnsInitFailed
  | dialAddrParse
  | dialFailed
  | listenAddrParse
  | listenFailed
  deriving DecidableEq, Repr

/-- The listen-address string of src/main.rs line 105, verbatim. -/
def listenAddrStr : String := "ip4/0.0.0.0/tcp/0"

/-- The single floodsub topic, src/main.rs line 41. -/
def chatTopic : String := "chat"

/-- The listen step of src/main.rs line 105: parse the listen-address string,
then call `listen_on`; on success the run proceeds into the event loop. -/
def listenPhase (env : StartEnv) (tr : List Action) :
    List Action × Option StartupError :=
  match parseMultiaddr listenAddrStr with
  | none => (tr, some StartupError.listenAddrParse)
  | some a =>
    if env.listenOk a then
      (tr ++ [Action.listenAttempt a, Action.enterEventLoop], none)
    else
      (tr ++ [Action.listenAttempt a], some StartupError.listenFailed)

/-- The first four actions of every run whose mDNS initialisation succeeds:
key generation, printing the derived peer id, mDNS start, topic
subscription (src/main.rs lines 22-25, 79, 85). -/
def startTrace (env : StartEnv) : List Action :=
  [Action.genKeypair env.seed, Action.printPeerId (runPeerId env),
   Action.mdnsInit, Action.subscribeChat]

/-- The startup sequence of `main` (src/main.rs lines 21-105) as a trace of
actions plus the error it returns, if any: generate a keypair, print the
derived peer id, initialise mDNS, subscribe to "chat", dial `argv[1]` if
present (parse errors and dial errors abort via `?`), then the listen step. -/
def startup (env : StartEnv) : List Action × Option StartupError :=
  if env.mdnsOk then
    match env.dialArg with
    | none => listenPhase env (startTrace env)
    | some s =>
      match parseMultiaddr s with
      | none => (startTrace env, some StartupError.dialAddrParse)
      | some a =>
        if env.dialOk a then
          listenPhase env
            (startTrace env ++ [Action.dialAttempt a, Action.printDialed s])
        else
          (startTrace env ++ [Action.dialAttempt a], some StartupError.dialFailed)
  else
    ([Action.genKeypair env.seed, Action.printPeerId (runPeerId env),
      Action.mdnsInit], some StartupError.mdnsInitFailed)

/-- Exit status of the process: `main` returns `Result`, and the Rust runtime
maps `Err` to exit code 1 (after printing the error). -/
def exitCode (r : List Action × Option StartupError) : Nat :=
  match r.2 with
  | some _ => 1
  | none => 0

/-- Diagnostic printed by the Rust runtime when `main` returns `Err`. -/
def mainDiagnostic (r : List Action × Option StartupError) : Option StartupError :=
  r.2

/-- Number of dial attempts in a trace. -/
def countDials (tr : List Action) : Nat :=
  (tr.filter (fun a => match a with | Action.dialAttempt _ => true | _ => false)).length

/-- True for actions that touch the network. -/
def isNetAction : Action → Bool
  | Action.mdnsInit => true
  | Action.dialAttempt _ => true
  | Action.printDialed _ => false
  | Action.listenAttempt _ => true
  | Action.enterEventLoop => true
  | _ => false

/-- A run environment with no dial argument and a cooperative OS. -/
def envPlain : StartEnv :=
  ⟨0, none, true, fun _ => true, fun _ => true⟩

/-- A run environment whose first argument is not a valid multiaddress. -/
def envBadDial : StartEnv :=
  ⟨0, some "badaddr", true, fun _ => true, fun _ => true⟩

/-- A run environment dialling a valid multiaddress that refuses connections. -/
def envDialRefused : StartEnv :=
  ⟨0, some "/ip4/127.0.0.1/tcp/4001", true, fun _ => false, fun _ => true⟩

/-! ## Node state: Flood Messaging Service and discovery

Peers are identified by their peer id (a Nat, see `peerIdFromPublic`); mDNS
addresses are likewise abstracted to Nat (the handler in src/main.rs lines
60-76 destructures `(peer, _)` and ignores the address).  The PartialView
maps each topic to the peers flooded for it; the SeenCache holds message
identities `(source, sequence_number)`. -/

abbrev PeerId := Nat
abbrev Topic := String

/-- A flood message: source peer, per-source sequence number, topic list and
payload. -/
structure Message where
  source : PeerId
  seqNo : Nat
  topics : List Topic
  payload : String
  deriving DecidableEq, Repr

/-- The identity of a message for deduplication purposes. -/
def msgId (m : Message) : PeerId × Nat := (m.source, m.seqNo)

/-- The PartialView: an association of topics to peer lists. -/
abbrev PView := List (Topic × List PeerId)

/-- Peers currently in the PartialView for a topic (first matching entry). -/
def viewPeers : PView → Topic → List PeerId
  | [], _ => []
  | e :: rest, t => if e.1 = t then e.2 else viewPeers rest t

/-- Add a peer to the PartialView for one topic (idempotent). -/
def viewInsert : PView → Topic → PeerId → PView
  | [], t, p => [(t, [p])]
  | e :: rest, t, p =>
    if e.1 = t then
      if p ∈ e.2 then e :: rest else (e.1, p :: e.2) :: rest
    else
      e :: viewInsert rest t p

/-- Remove a peer from every topic of the PartialView. -/
def viewRemove (pv : PView) (p : PeerId) : PView :=
  pv.map (fun e => (e.1, e.2.filter (fun q => q != p)))

/-- The state of one node's Flood Messaging Service together with the pieces
of swarm state the handlers consult: local peer id, subscribed topics, the
PartialView, the SeenCache, the set of live connections, the mDNS
discovered-record table (peer, address pairs with an unexpired record), and
the local publish sequence counter. -/
structure NodeState where
  localPeer : PeerId
  subs : List Topic
  view : PView
  seen : List (PeerId × Nat)
  conns : List PeerId
  mdnsRecords : List (PeerId × Nat)
  nextSeq : Nat
  deriving DecidableEq, Repr

/-- The node state right after startup: subscribed to "chat" only, empty
PartialView, empty SeenCache, no connections, no discovered records. -/
def initNode (pid : PeerId) : NodeState :=
  ⟨pid, [chatTopic], [], [], [], [], 0⟩

/-- `Mdns::has_node(peer)`: the discovered-record table still holds at least
one unexpired record for the peer. -/
def mdnsHasNode (st : NodeState) (p : PeerId) : Bool :=
  st.mdnsRecords.any (fun r => r.1 == p)

/-- Modelled from the spec: `Floodsub::add_node_to_partial_view` (the
libp2p floodsub implementation is not part of this repository).  The spec:
a discovered peer is added "to the PartialView for every topic the local
node currently relays on behalf of"; the topics relayed on behalf of are the
local subscriptions ("chat" in this program). -/
def addNodeToPView (st : NodeState) (p : PeerId) : NodeState :=
  { st with view := st.subs.foldl (fun pv t => viewInsert pv t p) st.view }

/-- Modelled from the spec: `Floodsub::remove_node_from_partial_view`
removes the peer from every PartialView entry. -/
def removeNodeFromPView (st : NodeState) (p : PeerId) : NodeState :=
  { st with view := viewRemove st.view p }

/-- The mDNS events handled in src/main.rs lines 60-76, carrying
(peer, address) pairs. -/
inductive MdnsEvent where
  | discovered (list : List (PeerId × Nat))
  | expired (list : List (PeerId × Nat))
  deriving DecidableEq, Repr

/-- `NetworkBehaviourEventProcess<MdnsEvent>::inject_event`, src/main.rs
lines 62-75, verbatim: on Discovered, add every listed peer to the
PartialView; on Expired, remove a listed peer from the PartialView unless
`self.mdns.has_node(&peer)` still holds.  When the handler runs, the mDNS
service has already dropped the expired records from its table. -/
def injectMdnsEvent (st : NodeState) (ev : MdnsEvent) : NodeState :=
  match ev with
  | MdnsEvent.discovered list =>
    list.foldl (fun s pr => addNodeToPView s pr.1) st
  | MdnsEvent.expired list =>
    list.foldl
      (fun s pr =>
        if mdnsHasNode s pr.1 then s else removeNodeFromPView s pr.1)
      st

/-- Modelled from the spec: `Floodsub::publish(topic, payload)` (libp2p
floodsub is not part of this repository) "constructs a Message with a
freshly incremented local sequence number, inserts it into SeenCache, and
sends a copy to every peer currently in PartialView for that topic",
unconditionally (local-origin publishes are never suppressed).  Returns the
new state and the per-peer send attempts. -/
def publish (st : NodeState) (t : Topic) (payload : String) :
    NodeState × List (PeerId × Message) :=
  let m : Message := ⟨st.localPeer, st.nextSeq + 1, [t], payload⟩
  ({ st with nextSeq := st.nextSeq + 1, seen := msgId m :: st.seen },
   (viewPeers st.view t).map (fun p => (p, m)))

/-- Result of handling one inbound message frame: the new state, the relay
send attempts, and the messages delivered to the application boundary
(printed as `Received` by src/main.rs lines 52-59). -/
structure InboundResult where
  state : NodeState
  relays : List (PeerId × Message)
  delivered : List Message
  deriving DecidableEq, Repr

/-- The relay fan-out for a message: every peer in the PartialView for any of
its topics, except the peer it arrived from. -/
def relayTargets (st : NodeState) (src : PeerId) (m : Message) : List PeerId :=
  ((m.topics.foldl (fun acc t => acc ++ viewPeers st.view t) []).eraseDups).filter
    (fun p => !(p == src))

/-- Modelled from the spec: inbound message handling of the Flood Messaging
Service (libp2p floodsub is not part of this repository).  "On receiving a
Message from a connection, check SeenCache; if already present, drop (no
relay, no delivery).  If absent, insert into SeenCache, deliver to the
application boundary if the local node subscribes to any of the message's
topics, and relay it unchanged to every peer in PartialView for those topics
except the peer it arrived from." -/
def handleInbound (st : NodeState) (src : PeerId) (m : Message) : InboundResult :=
  if st.seen.contains (msgId m) then ⟨st, [], []⟩
  else
    ⟨{ st with seen := msgId m :: st.seen },
     (relayTargets st src m).map (fun p => (p, m)),
     if m.topics.any (fun t => st.subs.contains t) then [m] else []⟩

/-- Handle a whole sequence of inbound frames `(arrival peer, message)`,
collecting every message delivered to the application boundary. -/
def runInbound (st : NodeState) : List (PeerId × Message) → NodeState × List Message
  | [] => (st, [])
  | f :: fs =>
    let r := handleInbound st f.1 f.2
    let rest := runInbound r.state fs
    (rest.1, r.delivered ++ rest.2)

/-! ## The event loop

One iteration of the `tokio::select!` loop of src/main.rs lines 108-120.
The stdin arm binds `line : io::Result<Option<String>>`; `line?` returns an
IO error from `main`, and `.expect("stdin closed")` panics on `None` (end of
file).  A full line is published on the chat topic.  The swarm arm prints
`NewListenAddr` events and silently consumes every other swarm event. -/

/-- What `stdin.next_line()` can resolve to. -/
inductive StdinRead where
  | line (s : String)
  | eof
  | readErr
  deriving DecidableEq, Repr

/-- The swarm events the loop can observe (transport errors and the rest are
all consumed by the wildcard of the `if let`). -/
inductive SwarmEv where
  | newListenAddr (a : Multiaddr)
  | connectionRefused
  | handshakeFailure
  | socketClosed
  | connectionEstablished (p : PeerId)
  | behaviourNotif
  deriving DecidableEq, Repr

/-- The event one `tokio::select!` iteration wakes up on. -/
inductive LoopEvent where
  | stdin (r : StdinRead)
  | swarm (e : SwarmEv)
  deriving DecidableEq, Repr

/-- How one loop iteration ends: the loop continues, the process panics
(`expect`), or `main` returns an error (`?`). -/
inductive Outcome where
  | running
  | panicked (msg : String)
  | errored
  deriving DecidableEq, Repr

/-- One iteration of the event loop, src/main.rs lines 108-120: outcome, new
node state, and the send attempts it caused. -/
def loopStep (st : NodeState) (ev : LoopEvent) :
    Outcome × NodeState × List (PeerId × Message) :=
  match ev with
  | LoopEvent.stdin (StdinRead.line s) =>
    let r := publish st chatTopic s
    (Outcome.running, r.1, r.2)
  | LoopEvent.stdin StdinRead.eof => (Outcome.panicked "stdin closed", st, [])
  | LoopEvent.stdin StdinRead.readErr => (Outcome.errored, st, [])
  | LoopEvent.swarm _ => (Outcome.running, st, [])

/-- A discovery round at system level: the mDNS service inserts the fresh
records into its table, then emits `MdnsEvent::Discovered` to the behaviour,
whose handler runs on the updated state.  No connection is established by
discovery. -/
def mdnsDiscoverStep (st : NodeState) (list : List (PeerId × Nat)) : NodeState :=
  injectMdnsEvent
    { st with
        mdnsRecords :=
          st.mdnsRecords ++ list.filter (fun r => !(st.mdnsRecords.contains r)) }
    (MdnsEvent.discovered list)

/-- The spec's PartialView invariant, as claimed: every peer present in the
PartialView for any topic has at least one live connection. -/
def viewConnected (st : NodeState) : Prop :=
  ∀ t : Topic, ∀ p : PeerId, p ∈ viewPeers st.view t → p ∈ st.conns

/-- A run environment like `envPlain` but with different key-generation
randomness. -/
def envSeed1 : StartEnv :=
  ⟨1, none, true, fun _ => true, fun _ => true⟩

/-- A node connected to peer 5 and flooding to it for "chat", whose last mDNS
record for peer 5 has just expired (the mDNS table no longer lists it). -/
def stExpired : NodeState :=
  ⟨0, [chatTopic], [(chatTopic, [5])], [], [5], [], 0⟩

/-- A node whose SeenCache already holds the message identity (9, 1). -/
def stSeen : NodeState :=
  ⟨0, [chatTopic], [(chatTopic, [4])], [(9, 1)], [4], [], 0⟩

/-- A duplicate copy of the already-seen message (9, 1). -/
def mDup : Message :=
  ⟨9, 1, [chatTopic], "dup"⟩

end Peardchat

namespace Peardchat

/-! ## Helper lemmas -/


theorem viewPeers_viewInsert (pv : PView) (t u : Topic) (p : PeerId) :
    viewPeers (viewInsert pv t p) u =
      if u = t then
        (if p ∈ viewPeers pv t then viewPeers pv t else p :: viewPeers pv t)
      else viewPeers pv u := by
  induction pv with
  | nil =>
    by_cases h : u = t
    · subst h; simp [viewInsert, viewPeers]
    · simp [viewInsert, viewPeers, h, Ne.symm h]
  | cons e rest ih =>
    by_cases he : e.1 = t
    · by_cases hm : p ∈ e.2
      · by_cases hu : u = t
        · subst hu; simp [viewInsert, viewPeers, he, hm]
        · simp [viewInsert, viewPeers, he, hm, hu]
      · by_cases hu : u = t
        · subst hu; simp [viewInsert, viewPeers, he, hm]
        · simp [viewInsert, viewPeers, he, hm, hu, Ne.symm hu]
    · by_cases hu : u = t
      · subst hu
        have : ¬ e.1 = u := he
        simp [viewInsert, viewPeers, he, ih]
      · by_cases heu : e.1 = u
        · simp [viewInsert, viewPeers, he, heu, hu]
        · simp [viewInsert, viewPeers, he, heu, hu, ih]

theorem mem_viewPeers_viewInsert_self (pv : PView) (t : Topic) (p : PeerId) :
    p ∈ viewPeers (viewInsert pv t p) t := by
  rw [viewPeers_viewInsert, if_pos rfl]
  by_cases hp : p ∈ viewPeers pv t
  · rw [if_pos hp]; exact hp
  · rw [if_neg hp]; exact List.mem_cons_self _ _

theorem mem_viewPeers_viewInsert_of_mem (pv : PView) (t u : Topic) (p q : PeerId)
    (h : q ∈ viewPeers pv u) : q ∈ viewPeers (viewInsert pv t p) u := by
  rw [viewPeers_viewInsert]
  by_cases hu : u = t
  · subst hu
    by_cases hp : p ∈ viewPeers pv u
    · rw [if_pos rfl, if_pos hp]; exact h
    · rw [if_pos rfl, if_neg hp]; exact List.mem_cons_of_mem _ h
  · rw [if_neg hu]; exact h

theorem viewPeers_viewRemove (pv : PView) (p : PeerId) (t : Topic) :
    viewPeers (viewRemove pv p) t = (viewPeers pv t).filter (fun q => q != p) := by
  induction pv with
  | nil => simp [viewRemove, viewPeers]
  | cons e rest ih =>
    by_cases he : e.1 = t
    · simp [viewRemove, viewPeers, he]
    · simp only [viewRemove] at ih
      simp [viewRemove, viewPeers, he, ih]

theorem mem_viewPeers_viewRemove (pv : PView) (p q : PeerId) (t : Topic) :
    q ∈ viewPeers (viewRemove pv p) t ↔ q ∈ viewPeers pv t ∧ q ≠ p := by
  rw [viewPeers_viewRemove]
  simp [List.mem_filter]


theorem contains_true_mem {α : Type} [BEq α] [LawfulBEq α] {l : List α} {a : α}
    (h : l.contains a = true) : a ∈ l := List.elem_iff.mp h

theorem contains_false_not_mem {α : Type} [BEq α] [LawfulBEq α] {l : List α} {a : α}
    (h : l.contains a = false) : a ∉ l := fun hm => by
  have h2 : l.contains a = true := List.elem_iff.mpr hm
  rw [h2] at h
  cases h

theorem mem_contains_true {α : Type} [BEq α] [LawfulBEq α] {l : List α} {a : α}
    (h : a ∈ l) : l.contains a = true := List.elem_iff.mpr h

theorem not_mem_contains_false {α : Type} [BEq α] [LawfulBEq α] {l : List α} {a : α}
    (h : a ∉ l) : l.contains a = false := by
  cases hc : l.contains a with
  | true => exact absurd (contains_true_mem hc) h
  | false => rfl

theorem foldInsert_mem_mono : ∀ (subs : List Topic) (pv : PView) (t : Topic) (p q : PeerId),
    q ∈ viewPeers pv t → q ∈ viewPeers (subs.foldl (fun v u => viewInsert v u p) pv) t
  | [], _, _, _, _, h => h
  | u :: subs, pv, t, p, q, h =>
    foldInsert_mem_mono subs (viewInsert pv u p) t p q
      (mem_viewPeers_viewInsert_of_mem pv u t p q h)

theorem foldInsert_mem_self (subs : List Topic) (pv : PView) (t : Topic) (p : PeerId)
    (h : t ∈ subs) : p ∈ viewPeers (subs.foldl (fun v u => viewInsert v u p) pv) t := by
  induction subs generalizing pv with
  | nil => cases h
  | cons u subs ih =>
    rcases List.mem_cons.mp h with rfl | h2
    · exact foldInsert_mem_mono subs (viewInsert pv t p) t p p
        (mem_viewPeers_viewInsert_self pv t p)
    · exact ih (viewInsert pv u p) h2

theorem addNode_mem_self (st : NodeState) (p : PeerId) (t : Topic) (h : t ∈ st.subs) :
    p ∈ viewPeers (addNodeToPView st p).view t :=
  foldInsert_mem_self st.subs st.view t p h

theorem addNode_mem_mono (st : NodeState) (p q : PeerId) (t : Topic)
    (h : q ∈ viewPeers st.view t) : q ∈ viewPeers (addNodeToPView st p).view t :=
  foldInsert_mem_mono st.subs st.view t p q h

theorem injectDiscovered_cons (st : NodeState) (pr : PeerId × Nat)
    (rest : List (PeerId × Nat)) :
    injectMdnsEvent st (MdnsEvent.discovered (pr :: rest)) =
      injectMdnsEvent (addNodeToPView st pr.1) (MdnsEvent.discovered rest) := rfl

theorem injectExpired_cons (st : NodeState) (pr : PeerId × Nat)
    (rest : List (PeerId × Nat)) :
    injectMdnsEvent st (MdnsEvent.expired (pr :: rest)) =
      injectMdnsEvent (if mdnsHasNode st pr.1 then st else removeNodeFromPView st pr.1)
        (MdnsEvent.expired rest) := rfl

theorem injectMdns_fields (st : NodeState) (ev : MdnsEvent) :
    (injectMdnsEvent st ev).localPeer = st.localPeer ∧
    (injectMdnsEvent st ev).subs = st.subs ∧
    (injectMdnsEvent st ev).seen = st.seen ∧
    (injectMdnsEvent st ev).conns = st.conns ∧
    (injectMdnsEvent st ev).mdnsRecords = st.mdnsRecords ∧
    (injectMdnsEvent st ev).nextSeq = st.nextSeq := by
  cases ev with
  | discovered list =>
    induction list generalizing st with
    | nil => exact ⟨rfl, rfl, rfl, rfl, rfl, rfl⟩
    | cons pr rest ih =>
      rw [injectDiscovered_cons]
      exact ih (addNodeToPView st pr.1)
  | expired list =>
    induction list generalizing st with
    | nil => exact ⟨rfl, rfl, rfl, rfl, rfl, rfl⟩
    | cons pr rest ih =>
      rw [injectExpired_cons]
      cases h : mdnsHasNode st pr.1 with
      | true =>
        rw [if_pos rfl]
        exact ih st
      | false =>
        rw [if_neg Bool.false_ne_true]
        exact ih (removeNodeFromPView st pr.1)


theorem addNode_conns_comm (st : NodeState) (c : List PeerId) (p : PeerId) :
    addNodeToPView { st with conns := c } p = { addNodeToPView st p with conns := c } := rfl

theorem removeNode_conns_comm (st : NodeState) (c : List PeerId) (p : PeerId) :
    removeNodeFromPView { st with conns := c } p =
      { removeNodeFromPView st p with conns := c } := rfl

theorem injectMdns_conns_comm (st : NodeState) (c : List PeerId) (ev : MdnsEvent) :
    injectMdnsEvent { st with conns := c } ev = { injectMdnsEvent st ev with conns := c } := by
  cases ev with
  | discovered list =>
    induction list generalizing st with
    | nil => rfl
    | cons pr rest ih =>
      rw [injectDiscovered_cons, addNode_conns_comm, injectDiscovered_cons]
      exact ih (addNodeToPView st pr.1)
  | expired list =>
    induction list generalizing st with
    | nil => rfl
    | cons pr rest ih =>
      rw [injectExpired_cons, injectExpired_cons]
      have hh : mdnsHasNode { st with conns := c } pr.1 = mdnsHasNode st pr.1 := rfl
      rw [hh]
      cases h : mdnsHasNode st pr.1 with
      | true =>
        rw [if_pos rfl, if_pos rfl]
        exact ih st
      | false =>
        rw [if_neg Bool.false_ne_true, if_neg Bool.false_ne_true, removeNode_conns_comm]
        exact ih (removeNodeFromPView st pr.1)

theorem removeNode_not_mem (st : NodeState) (p : PeerId) (t : Topic) :
    p ∉ viewPeers (removeNodeFromPView st p).view t := by
  intro h
  rcases (mem_viewPeers_viewRemove st.view p p t).mp h with ⟨-, hne⟩
  exact hne rfl

theorem removeNode_not_mem_mono (st : NodeState) (p q : PeerId) (t : Topic)
    (h : p ∉ viewPeers st.view t) : p ∉ viewPeers (removeNodeFromPView st q).view t := by
  intro hmem
  exact h ((mem_viewPeers_viewRemove st.view q p t).mp hmem).1

theorem injectExpired_not_mem_mono (st : NodeState) (list : List (PeerId × Nat)) (p : PeerId)
    (t : Topic) (h : p ∉ viewPeers st.view t) :
    p ∉ viewPeers (injectMdnsEvent st (MdnsEvent.expired list)).view t := by
  induction list generalizing st with
  | nil => exact h
  | cons pr rest ih =>
    rw [injectExpired_cons]
    cases hx : mdnsHasNode st pr.1 with
    | true =>
      rw [if_pos rfl]
      exact ih st h
    | false =>
      rw [if_neg Bool.false_ne_true]
      exact ih (removeNodeFromPView st pr.1) (removeNode_not_mem_mono st p pr.1 t h)

theorem injectExpired_removes (st : NodeState) (list : List (PeerId × Nat)) (p : PeerId)
    (hp : mdnsHasNode st p = false) (hmem : p ∈ list.map Prod.fst) (t : Topic) :
    p ∉ viewPeers (injectMdnsEvent st (MdnsEvent.expired list)).view t := by
  induction list generalizing st with
  | nil => cases hmem
  | cons pr rest ih =>
    rw [injectExpired_cons]
    rw [List.map_cons] at hmem
    rcases List.mem_cons.mp hmem with heq | h2
    · subst heq
      rw [if_neg (by rw [hp]; exact Bool.false_ne_true)]
      exact injectExpired_not_mem_mono (removeNodeFromPView st pr.1) rest pr.1 t
        (removeNode_not_mem st pr.1 t)
    · cases hx : mdnsHasNode st pr.1 with
      | true =>
        rw [if_pos rfl]
        exact ih st hp h2
      | false =>
        rw [if_neg Bool.false_ne_true]
        have hp2 : mdnsHasNode (removeNodeFromPView st pr.1) p = false := hp
        exact ih (removeNodeFromPView st pr.1) hp2 h2

theorem injectExpired_keeps (st : NodeState) (list : List (PeerId × Nat)) (p : PeerId)
    (hp : mdnsHasNode st p = true) (t : Topic) :
    p ∈ viewPeers (injectMdnsEvent st (MdnsEvent.expired list)).view t ↔
      p ∈ viewPeers st.view t := by
  induction list generalizing st with
  | nil => exact Iff.rfl
  | cons pr rest ih =>
    rw [injectExpired_cons]
    cases hx : mdnsHasNode st pr.1 with
    | true =>
      rw [if_pos rfl]
      exact ih st hp
    | false =>
      rw [if_neg Bool.false_ne_true]
      have hne : p ≠ pr.1 := fun hh => by rw [hh] at hp; rw [hp] at hx; cases hx
      have hp2 : mdnsHasNode (removeNodeFromPView st pr.1) p = true := hp
      rw [ih (removeNodeFromPView st pr.1) hp2]
      constructor
      · exact fun h => ((mem_viewPeers_viewRemove st.view pr.1 p t).mp h).1
      · exact fun h => (mem_viewPeers_viewRemove st.view pr.1 p t).mpr ⟨h, hne⟩

theorem injectDiscovered_mono (st : NodeState) (list : List (PeerId × Nat)) (q : PeerId)
    (t : Topic) (h : q ∈ viewPeers st.view t) :
    q ∈ viewPeers (injectMdnsEvent st (MdnsEvent.discovered list)).view t := by
  induction list generalizing st with
  | nil => exact h
  | cons pr rest ih =>
    rw [injectDiscovered_cons]
    exact ih (addNodeToPView st pr.1) (addNode_mem_mono st pr.1 q t h)

theorem injectDiscovered_mem (st : NodeState) (list : List (PeerId × Nat))
    (pr : PeerId × Nat) (t : Topic) (hpr : pr ∈ list) (ht : t ∈ st.subs) :
    pr.1 ∈ viewPeers (injectMdnsEvent st (MdnsEvent.discovered list)).view t := by
  induction list generalizing st with
  | nil => cases hpr
  | cons q rest ih =>
    rw [injectDiscovered_cons]
    rcases List.mem_cons.mp hpr with rfl | h2
    · exact injectDiscovered_mono (addNodeToPView st pr.1) rest pr.1 t
        (addNode_mem_self st pr.1 t ht)
    · exact ih (addNodeToPView st q.1) h2 (show t ∈ (addNodeToPView st q.1).subs from ht)


theorem handleInbound_seen_hit (st : NodeState) (src : PeerId) (m : Message)
    (h : msgId m ∈ st.seen) : handleInbound st src m = ⟨st, [], []⟩ := by
  unfold handleInbound
  rw [if_pos (mem_contains_true h)]

theorem handleInbound_seen_miss (st : NodeState) (src : PeerId) (m : Message)
    (h : msgId m ∉ st.seen) :
    handleInbound st src m =
      ⟨{ st with seen := msgId m :: st.seen },
       (relayTargets st src m).map (fun p => (p, m)),
       if m.topics.any (fun t => st.subs.contains t) then [m] else []⟩ := by
  unfold handleInbound
  rw [if_neg (by rw [not_mem_contains_false h]; exact Bool.false_ne_true)]

theorem runInbound_cons (st : NodeState) (f : PeerId × Message)
    (fs : List (PeerId × Message)) :
    runInbound st (f :: fs) =
      ((runInbound (handleInbound st f.1 f.2).state fs).1,
        (handleInbound st f.1 f.2).delivered ++
          (runInbound (handleInbound st f.1 f.2).state fs).2) := rfl

theorem runInbound_seen_mono (st : NodeState) (fs : List (PeerId × Message))
    (x : PeerId × Nat) (h : x ∈ st.seen) : x ∈ (runInbound st fs).1.seen := by
  induction fs generalizing st with
  | nil => exact h
  | cons f fs ih =>
    rw [runInbound_cons]
    by_cases hs : msgId f.2 ∈ st.seen
    · rw [handleInbound_seen_hit st f.1 f.2 hs]
      exact ih st h
    · rw [handleInbound_seen_miss st f.1 f.2 hs]
      exact ih { st with seen := msgId f.2 :: st.seen } (List.mem_cons_of_mem _ h)

theorem runInbound_dedup (st : NodeState) (fs : List (PeerId × Message)) :
    (runInbound st fs).2.Pairwise (fun a b => msgId a ≠ msgId b) ∧
    ∀ d ∈ (runInbound st fs).2, msgId d ∉ st.seen ∧ msgId d ∈ (runInbound st fs).1.seen := by
  induction fs generalizing st with
  | nil => exact ⟨List.Pairwise.nil, fun d hd => absurd hd (List.not_mem_nil d)⟩
  | cons f fs ih =>
    rw [runInbound_cons]
    by_cases hs : msgId f.2 ∈ st.seen
    · rw [handleInbound_seen_hit st f.1 f.2 hs]
      simpa using ih st
    · rw [handleInbound_seen_miss st f.1 f.2 hs]
      obtain ⟨ihp, ihd⟩ := ih { st with seen := msgId f.2 :: st.seen }
      constructor
      · simp only []
        rw [List.pairwise_append]
        refine ⟨?_, ihp, ?_⟩
        · split
          · exact List.pairwise_singleton _ _
          · exact List.Pairwise.nil
        · intro a ha b hb
          have haf : a = f.2 := by
            revert ha
            split
            · intro ha
              simpa using ha
            · intro ha
              cases ha
          subst haf
          intro hEq
          exact (ihd b hb).1 (by rw [← hEq]; exact List.mem_cons_self _ _)
      · intro d hd
        rcases List.mem_append.mp hd with hd1 | hd2
        · have hdf : d = f.2 := by
            revert hd1
            split
            · intro h1
              simpa using h1
            · intro h1
              cases h1
          subst hdf
          exact ⟨hs, runInbound_seen_mono { st with seen := msgId f.2 :: st.seen } fs _
            (List.mem_cons_self _ _)⟩
        · obtain ⟨h1, h2⟩ := ihd d hd2
          exact ⟨fun hmem => h1 (List.mem_cons_of_mem _ hmem), h2⟩

end Peardchat

namespace Peardchat

/-! ## Startup evaluation lemmas -/

theorem listenPhase_trace (env : StartEnv) (tr : List Action) :
    listenPhase env tr = (tr, some StartupError.listenAddrParse) := by
  unfold listenPhase
  rw [show parseMultiaddr listenAddrStr = none from by decide]

theorem startup_eq_nomdns (env : StartEnv) (hm : env.mdnsOk = false) :
    startup env =
      ([Action.genKeypair env.seed, Action.printPeerId (runPeerId env),
        Action.mdnsInit], some StartupError.mdnsInitFailed) := by
  unfold startup
  rw [hm, if_neg Bool.false_ne_true]

theorem startup_eq_nodial (env : StartEnv) (harg : env.dialArg = none)
    (hm : env.mdnsOk = true) :
    startup env = (startTrace env, some StartupError.listenAddrParse) := by
  unfold startup
  rw [hm, if_pos rfl, harg]
  exact listenPhase_trace env (startTrace env)

theorem startup_eq_dial (env : StartEnv) (s : String)
    (harg : env.dialArg = some s) (hm : env.mdnsOk = true) :
    startup env =
      match parseMultiaddr s with
      | none => (startTrace env, some StartupError.dialAddrParse)
      | some a =>
        if env.dialOk a then
          (startTrace env ++ [Action.dialAttempt a, Action.printDialed s],
            some StartupError.listenAddrParse)
        else
          (startTrace env ++ [Action.dialAttempt a],
            some StartupError.dialFailed) := by
  unfold startup
  rw [hm, if_pos rfl, harg]
  show (match parseMultiaddr s with
    | none => (startTrace env, some StartupError.dialAddrParse)
    | some a =>
      if env.dialOk a then
        listenPhase env
          (startTrace env ++ [Action.dialAttempt a, Action.printDialed s])
      else
        (startTrace env ++ [Action.dialAttempt a],
          some StartupError.dialFailed)) = _
  cases hp : parseMultiaddr s with
  | none => rfl
  | some a =>
    show (if env.dialOk a then
        listenPhase env
          (startTrace env ++ [Action.dialAttempt a, Action.printDialed s])
      else
        (startTrace env ++ [Action.dialAttempt a],
          some StartupError.dialFailed)) =
      (if env.dialOk a then
        (startTrace env ++ [Action.dialAttempt a, Action.printDialed s],
          some StartupError.listenAddrParse)
      else
        (startTrace env ++ [Action.dialAttempt a],
          some StartupError.dialFailed))
    cases ho : env.dialOk a with
    | true =>
      rw [if_pos rfl, if_pos rfl]
      exact listenPhase_trace env _
    | false =>
      rw [if_neg Bool.false_ne_true, if_neg Bool.false_ne_true]

end Peardchat

namespace Peardchat

/-! ## Claim theorems -/

/-- C1: the claim says startup listens on all interfaces with an OS-assigned
port, the listen-address string parsing successfully.  In fact the string
"ip4/0.0.0.0/tcp/0" lacks the mandatory leading slash of the multiaddr text
format, so parsing fails; the intended address "/ip4/0.0.0.0/tcp/0" would
parse.  Consequently `main` aborts with the parse error at the `listen_on`
line and no run ever reaches the event loop. -/
theorem listen_addr_missing_slash_aborts_startup :
    parseMultiaddr listenAddrStr = none ∧
    parseMultiaddr "/ip4/0.0.0.0/tcp/0" = some [Proto.ip4 0 0 0 0, Proto.tcp 0] ∧
    (startup envPlain).2 = some StartupError.listenAddrParse ∧
    ∀ env : StartEnv, Action.enterEventLoop ∉ (startup env).1 := by
  refine ⟨by decide, by decide, by decide, ?_⟩
  intro env
  cases hm : env.mdnsOk with
  | false =>
    rw [startup_eq_nomdns env hm]
    simp
  | true =>
    cases hd : env.dialArg with
    | none =>
      rw [startup_eq_nodial env hd hm]
      simp [startTrace]
    | some s =>
      rw [startup_eq_dial env s hd hm]
      cases hp : parseMultiaddr s with
      | none => simp [startTrace]
      | some a =>
        cases ho : env.dialOk a <;> simp [ho, startTrace]

/-- C2 (counterexample): at the concrete post-startup state, a stdin
end-of-file makes the loop iteration panic ("stdin closed") instead of
continuing, refuting the claim that exhaustion of the local input source
does not terminate the loop or the process. -/
theorem stdin_eof_panics_event_loop :
    (loopStep (initNode 0) (LoopEvent.stdin StdinRead.eof)).1 =
      Outcome.panicked "stdin closed" ∧
    (loopStep (initNode 0) (LoopEvent.stdin StdinRead.eof)).1 ≠ Outcome.running :=
  ⟨rfl, by decide⟩

/-- C2 (amended): one loop iteration continues on every stdin line and on
every swarm event, but terminates the process by panic when stdin reaches
end-of-file and by returning the IO error from `main` when the stdin read
fails. -/
theorem loop_termination_behavior (st : NodeState) (s : String) (e : SwarmEv) :
    (loopStep st (LoopEvent.stdin (StdinRead.line s))).1 = Outcome.running ∧
    (loopStep st (LoopEvent.swarm e)).1 = Outcome.running ∧
    (loopStep st (LoopEvent.stdin StdinRead.eof)).1 =
      Outcome.panicked "stdin closed" ∧
    (loopStep st (LoopEvent.stdin StdinRead.readErr)).1 = Outcome.errored :=
  ⟨rfl, rfl, rfl, rfl⟩

/-- C3 (counterexample): from the fresh node state, handling an mDNS
Discovered event for peer 7 inserts peer 7 into the PartialView for "chat"
although the node has no connection at all, so the connection invariant
fails at a reachable state. -/
theorem mdns_discovered_inserts_unconnected_peer :
    (7 : PeerId) ∈ viewPeers (mdnsDiscoverStep (initNode 0) [(7, 1)]).view chatTopic ∧
    (mdnsDiscoverStep (initNode 0) [(7, 1)]).conns = [] ∧
    ¬ viewConnected (mdnsDiscoverStep (initNode 0) [(7, 1)]) := by
  refine ⟨by decide, by decide, ?_⟩
  intro h
  exact absurd (h chatTopic 7 (by decide)) (by decide)

/-- C3 (amended): the mDNS Discovered handler adds every discovered peer to
the PartialView without consulting the connection set: it never changes the
connections, and the resulting PartialView is the same whatever the
connection set was. -/
theorem mdns_discovered_ignores_connections (st : NodeState) (c : List PeerId)
    (list : List (PeerId × Nat)) :
    (injectMdnsEvent st (MdnsEvent.discovered list)).conns = st.conns ∧
    (injectMdnsEvent { st with conns := c } (MdnsEvent.discovered list)).view =
      (injectMdnsEvent st (MdnsEvent.discovered list)).view := by
  refine ⟨(injectMdns_fields st (MdnsEvent.discovered list)).2.2.2.1, ?_⟩
  rw [injectMdns_conns_comm]

/-- C4 (counterexample): peer 5 is connected, its last mDNS record has
expired; handling the Expired event removes peer 5 from the PartialView
even though it is still known to be connected, refuting the "unless
independently known to be connected" guard. -/
theorem mdns_expiry_removes_connected_peer :
    5 ∈ stExpired.conns ∧
    5 ∈ (injectMdnsEvent stExpired (MdnsEvent.expired [(5, 3)])).conns ∧
    5 ∉ viewPeers (injectMdnsEvent stExpired (MdnsEvent.expired [(5, 3)])).view chatTopic := by
  exact ⟨by decide, by decide, by decide⟩

/-- C4 (amended): on an Expired event, a listed peer is removed from every
PartialView entry unless the mDNS table still holds a record for it
(connection state is not consulted); after removal a publish makes zero
send attempts to that peer, and a peer still in the mDNS table keeps
exactly its previous PartialView membership. -/
theorem mdns_expiry_prunes_unless_in_mdns_table (st : NodeState)
    (list : List (PeerId × Nat)) (p : PeerId) :
    (mdnsHasNode st p = false → p ∈ list.map Prod.fst →
      (∀ t, p ∉ viewPeers (injectMdnsEvent st (MdnsEvent.expired list)).view t) ∧
      (∀ t pl e, e ∈ (publish (injectMdnsEvent st (MdnsEvent.expired list)) t pl).2 →
        e.1 ≠ p)) ∧
    (mdnsHasNode st p = true → ∀ t,
      (p ∈ viewPeers (injectMdnsEvent st (MdnsEvent.expired list)).view t ↔
        p ∈ viewPeers st.view t)) := by
  constructor
  · intro hp hmem
    refine ⟨fun t => injectExpired_removes st list p hp hmem t, ?_⟩
    intro t pl e he hEq
    have hq : e.1 ∈ viewPeers (injectMdnsEvent st (MdnsEvent.expired list)).view t := by
      rcases List.mem_map.mp he with ⟨q, hq, rfl⟩
      exact hq
    exact injectExpired_removes st list p hp hmem t (hEq ▸ hq)
  · intro hp t
    exact injectExpired_keeps st list p hp t

/-- C4 (witness): the amended theorem applied at the concrete expired-peer
state. -/
theorem mdns_expiry_prunes_unless_in_mdns_table_w :
    5 ∉ viewPeers (injectMdnsEvent stExpired (MdnsEvent.expired [(5, 3)])).view "news" :=
  ((mdns_expiry_prunes_unless_in_mdns_table stExpired [(5, 3)] 5).1 (by decide)
    (by decide)).1 "news"

/-- C5: handling an mDNS Discovered event adds every listed peer to the
PartialView for every topic the local node relays on behalf of (its
subscription set); the event carries no topic information about the remote
peer, so no shared topic is required. -/
theorem mdns_discovered_adds_peer_to_all_relay_topics (st : NodeState)
    (list : List (PeerId × Nat)) (pr : PeerId × Nat) (t : Topic)
    (hpr : pr ∈ list) (ht : t ∈ st.subs) :
    pr.1 ∈ viewPeers (injectMdnsEvent st (MdnsEvent.discovered list)).view t :=
  injectDiscovered_mem st list pr t hpr ht

/-- C5 (witness): the theorem applied at the fresh node discovering peer 5. -/
theorem mdns_discovered_adds_peer_to_all_relay_topics_w :
    (5 : PeerId) ∈ viewPeers (injectMdnsEvent (initNode 0)
      (MdnsEvent.discovered [(5, 2)])).view chatTopic :=
  mdns_discovered_adds_peer_to_all_relay_topics (initNode 0) [(5, 2)] (5, 2) chatTopic
    (by decide) (by decide)

/-- C6: a frame whose (source, sequence number) identity is already in the
SeenCache is dropped: no relay, no delivery, no state change; and over every
sequence of inbound frames, the messages delivered to the application
boundary have pairwise distinct identities, none previously present in the
SeenCache - regardless of the order or path duplicate copies arrive by. -/
theorem seen_cache_dedup :
    (∀ (st : NodeState) (src : PeerId) (m : Message),
      msgId m ∈ st.seen → handleInbound st src m = ⟨st, [], []⟩) ∧
    (∀ (st : NodeState) (fs : List (PeerId × Message)),
      (runInbound st fs).2.Pairwise (fun a b => msgId a ≠ msgId b) ∧
      ∀ d ∈ (runInbound st fs).2, msgId d ∉ st.seen) :=
  ⟨fun st src m h => handleInbound_seen_hit st src m h,
   fun st fs =>
    ⟨(runInbound_dedup st fs).1, fun d hd => ((runInbound_dedup st fs).2 d hd).1⟩⟩

/-- C6 (witness): a duplicate of the already-seen message (9, 1) is fully
suppressed at the concrete state. -/
theorem seen_cache_dedup_w :
    handleInbound stSeen 3 mDup = ⟨stSeen, [], []⟩ :=
  seen_cache_dedup.1 stSeen 3 mDup (by decide)

/-- C7: every full stdin line is published on the chat topic with the
freshly incremented local sequence number, the new identity entering the
SeenCache, and a copy is sent to every peer currently in the PartialView
for "chat"; the send list does not depend on the SeenCache contents. -/
theorem stdin_line_publish_floods_view (st : NodeState) (s : String)
    (seen2 : List (PeerId × Nat)) :
    (loopStep st (LoopEvent.stdin (StdinRead.line s))).1 = Outcome.running ∧
    (loopStep st (LoopEvent.stdin (StdinRead.line s))).2.2 =
      (viewPeers st.view chatTopic).map
        (fun p => (p, ⟨st.localPeer, st.nextSeq + 1, [chatTopic], s⟩)) ∧
    (loopStep st (LoopEvent.stdin (StdinRead.line s))).2.1.nextSeq =
      st.nextSeq + 1 ∧
    (loopStep st (LoopEvent.stdin (StdinRead.line s))).2.1.seen =
      (st.localPeer, st.nextSeq + 1) :: st.seen ∧
    (loopStep { st with seen := seen2 } (LoopEvent.stdin (StdinRead.line s))).2.2 =
      (loopStep st (LoopEvent.stdin (StdinRead.line s))).2.2 :=
  ⟨rfl, rfl, rfl, rfl, rfl⟩

/-- C8: with a first command-line argument, startup parses it as a
multiaddress; a parse failure aborts before any dial with the parse error,
exit code 1 and a diagnostic; on success exactly one dial attempt is made,
and a dial failure aborts with the dial error, exit code 1, never reaching
the event loop. -/
theorem dial_arg_parse_and_dial_once (env : StartEnv) (s : String)
    (harg : env.dialArg = some s) (hm : env.mdnsOk = true) :
    (parseMultiaddr s = none →
      (startup env).2 = some StartupError.dialAddrParse ∧
      exitCode (startup env) = 1 ∧
      (mainDiagnostic (startup env)).isSome = true ∧
      countDials (startup env).1 = 0 ∧
      Action.enterEventLoop ∉ (startup env).1) ∧
    (∀ a : Multiaddr, parseMultiaddr s = some a →
      countDials (startup env).1 = 1 ∧
      Action.dialAttempt a ∈ (startup env).1 ∧
      (env.dialOk a = false →
        (startup env).2 = some StartupError.dialFailed ∧
        exitCode (startup env) = 1 ∧
        (mainDiagnostic (startup env)).isSome = true ∧
        Action.enterEventLoop ∉ (startup env).1)) := by
  constructor
  · intro hp
    rw [startup_eq_dial env s harg hm, hp]
    refine ⟨rfl, rfl, rfl, ?_, ?_⟩
    · simp [countDials, startTrace]
    · simp [startTrace]
  · intro a hp
    cases ho : env.dialOk a with
    | true =>
      have hstart : startup env =
          (startTrace env ++ [Action.dialAttempt a, Action.printDialed s],
            some StartupError.listenAddrParse) := by
        rw [startup_eq_dial env s harg hm, hp]
        simp [ho]
      rw [hstart]
      refine ⟨?_, ?_, ?_⟩
      · simp [countDials, startTrace]
      · simp [startTrace]
      · intro hcontra
        exact absurd hcontra (by decide)
    | false =>
      have hstart : startup env =
          (startTrace env ++ [Action.dialAttempt a],
            some StartupError.dialFailed) := by
        rw [startup_eq_dial env s harg hm, hp]
        simp [ho]
      rw [hstart]
      refine ⟨?_, ?_, ?_⟩
      · simp [countDials, startTrace]
      · simp [startTrace]
      · intro hok
        refine ⟨rfl, rfl, rfl, ?_⟩
        simp [startTrace]

/-- C8 (witness): the theorem applied to the run whose first argument is
the unparsable address "badaddr". -/
theorem dial_arg_parse_and_dial_once_w :
    (startup envBadDial).2 = some StartupError.dialAddrParse ∧
    exitCode (startup envBadDial) = 1 ∧
    (mainDiagnostic (startup envBadDial)).isSome = true ∧
    countDials (startup envBadDial).1 = 0 ∧
    Action.enterEventLoop ∉ (startup envBadDial).1 :=
  (dial_arg_parse_and_dial_once envBadDial "badaddr" rfl rfl).1 (by decide)

/-- C9: once in the event loop, every swarm event - transport errors
included - is consumed without exiting the loop, changing the node state or
sending anything; only the NewListenAddr case is printed. -/
theorem swarm_events_never_exit_loop (st : NodeState) (e : SwarmEv) :
    loopStep st (LoopEvent.swarm e) = (Outcome.running, st, []) := rfl

/-- C10: each run generates a fresh Ed25519 keypair from its own randomness
and derives the peer id from the public key: runs with different randomness
have different peer ids; the first two actions of every trace are the key
generation and the printing of the derived peer id, both before any network
action, and no trace ever reads or persists an identity configuration. -/
theorem fresh_identity_each_run (e1 e2 : StartEnv) (h : e1.seed ≠ e2.seed) :
    runPeerId e1 ≠ runPeerId e2 ∧
    ∀ env : StartEnv,
      (startup env).1.take 2 =
        [Action.genKeypair env.seed, Action.printPeerId (runPeerId env)] ∧
      (∀ a ∈ (startup env).1.take 2, isNetAction a = false) ∧
      Action.readIdentityConfig ∉ (startup env).1 ∧
      Action.persistIdentityConfig ∉ (startup env).1 := by
  refine ⟨h, ?_⟩
  intro env
  cases hm : env.mdnsOk with
  | false =>
    rw [startup_eq_nomdns env hm]
    refine ⟨rfl, ?_, ?_, ?_⟩ <;> simp [isNetAction]
  | true =>
    cases hd : env.dialArg with
    | none =>
      rw [startup_eq_nodial env hd hm]
      refine ⟨rfl, ?_, ?_, ?_⟩ <;> simp [startTrace, isNetAction]
    | some s =>
      rw [startup_eq_dial env s hd hm]
      cases hp : parseMultiaddr s with
      | none =>
        refine ⟨rfl, ?_, ?_, ?_⟩ <;> simp [startTrace, isNetAction]
      | some a =>
        cases ho : env.dialOk a <;>
          refine ⟨?_, ?_, ?_, ?_⟩ <;> simp [ho, startTrace, isNetAction]

/-- C10 (witness): two concrete runs with different randomness derive
different peer ids, and the first two actions are key generation and the
peer-id print. -/
theorem fresh_identity_each_run_w :
    runPeerId envPlain ≠ runPeerId envSeed1 ∧
    (startup envPlain).1.take 2 =
      [Action.genKeypair 0, Action.printPeerId 0] :=
  ⟨(fresh_identity_each_run envPlain envSeed1 (by decide)).1,
    ((fresh_identity_each_run envPlain envSeed1 (by decide)).2 envPlain).1⟩

end Peardchat
